import Mathlib

/-!
Verification of the document ingestion and analysis pipeline
(`app/services/document_loader.py`, `app/api/routes/upload.py`).

Text is modelled as `List Char`; byte payloads as `List (Fin 256)`; the
filesystem used by the upload directory as a list of entries.  External
collaborators (PDF/DOCX libraries, the fraud analyzer, the chart renderer,
the mailer) are modelled as outcome parameters (`Except`-valued), because
the repository treats them as opaque calls whose result or exception is the
only thing the orchestration code observes.
-/

/-! ## Text normalization (`DocumentLoaderService.normalize_text`) -/

/-- The whitespace characters recognised by Python's `str.strip()`
(ASCII whitespace). -/
def isPySpace (c : Char) : Bool :=
  c = ' ' || c = '\t' || c = '\n' || c = '\r' || c = '\x0b' || c = '\x0c'

/-- Python `str.strip()`: drop leading and trailing whitespace. -/
def pyStrip (l : List Char) : List Char :=
  ((l.dropWhile isPySpace).reverse.dropWhile isPySpace).reverse

/-- Python `text.split('\n')`: split into lines on newline characters;
the empty string yields one empty line, like Python. -/
def splitOnNl : List Char → List (List Char)
  | [] => [[]]
  | c :: rest =>
    if c = '\n' then [] :: splitOnNl rest
    else
      match splitOnNl rest with
      | [] => [[c]]
      | l :: ls => (c :: l) :: ls

/-- Python `'\n'.join(lines)`. -/
def joinNl : List (List Char) → List Char
  | [] => []
  | [l] => l
  | l :: ls => l ++ '\n' :: joinNl ls

/-- Python `'\n\n'.join(parts)` (the page separator used by the PDF and
DOCX extractors). -/
def joinBlank : List (List Char) → List Char
  | [] => []
  | [l] => l
  | l :: ls => l ++ '\n' :: '\n' :: joinBlank ls

/-- Python `re.sub(r' +', ' ', s)`: collapse every run of spaces to one. -/
def collapseSpaces : List Char → List Char
  | [] => []
  | [c] => [c]
  | a :: b :: rest =>
    if a = ' ' && b = ' ' then collapseSpaces (b :: rest)
    else a :: collapseSpaces (b :: rest)

/-- `DocumentLoaderService.normalize_text`: strip each line, drop empty
lines, rejoin with single newlines, collapse space runs, strip the whole. -/
def normalize_text (text : List Char) : List Char :=
  if text.isEmpty then []
  else
    let lines := (splitOnNl text).map pyStrip
    let lines2 := lines.filter (fun l => !l.isEmpty)
    let joined := joinNl lines2
    pyStrip (collapseSpaces joined)

/-- `chain2Free c l` holds when `l` has no two consecutive occurrences
of the character `c`. -/
def chain2Free (c : Char) : List Char → Bool
  | a :: b :: rest => !(a = c && b = c) && chain2Free c (b :: rest)
  | _ => true

/-- `noWsHead l`: the first character of `l`, when any, is not whitespace. -/
def noWsHead (l : List Char) : Bool :=
  l.head?.all (fun c => !isPySpace c)

/-- `noWsLast l`: the last character of `l`, when any, is not whitespace. -/
def noWsLast (l : List Char) : Bool :=
  l.getLast?.all (fun c => !isPySpace c)

/-! ## File validation (`DocumentLoaderService.validate_file`) -/

/-- Why the validator rejected a file.  The source returns human-readable
message strings; the unsupported-type message interpolates a Python set
whose iteration order is unspecified, so the three reasons are modelled as
an enumeration. -/
inductive ValidationReason
  | unsupportedType
  | tooLarge
  | emptyFile
deriving DecidableEq

/-- `DocumentLoaderService.SUPPORTED_EXTENSIONS`. -/
def SUPPORTED_EXTENSIONS : List (List Char) :=
  [(".pdf".toList), (".docx".toList), (".txt".toList)]

/-- `DocumentLoaderService.MAX_FILE_SIZE_BYTES` (10 MiB). -/
def MAX_FILE_SIZE_BYTES : Nat := 10 * 1024 * 1024

/-- `pathlib.Path(filename).suffix`: the extension (with dot) of the final
path component; empty when the name has no dot, starts with its only dot,
or ends with the dot. -/
def pathSuffix (filename : List Char) : List Char :=
  let name := (filename.reverse.takeWhile (fun c => c ≠ '/')).reverse
  let tailRev := name.reverse.takeWhile (fun c => c ≠ '.')
  if tailRev.length + 1 < name.length && 0 < tailRev.length then
    '.' :: tailRev.reverse
  else []

/-- `DocumentLoaderService.validate_file`: extension check, then oversize
check, then empty check.  `none` means valid; `some r` is the rejection
reason (the source's `(False, message)`). -/
def validate_file (filename : List Char) (file_size : Nat) : Option ValidationReason :=
  let ext := (pathSuffix filename).map Char.toLower
  if !(SUPPORTED_EXTENSIONS.contains ext) then some .unsupportedType
  else if file_size > MAX_FILE_SIZE_BYTES then some .tooLarge
  else if file_size = 0 then some .emptyFile
  else none

/-! ## PDF extraction (`DocumentLoaderService.extract_text_from_pdf`)

The two strategies call external libraries (PyPDF2 and the generic
LangChain `PyPDFLoader`); each call either raises or yields a list of
page texts, so each strategy is modelled by its outcome. -/

/-- `DocumentLoaderService.extract_text_from_pdf`.  `primary` is the
outcome of the PyPDF2 read (the per-page texts, empty strings included,
exactly as `page.extract_text()` returns them); `fallback` the outcome of
the LangChain loader.  The source appends a page's text only when it is
truthy (non-empty), joins with a blank line, and consults the fallback
only inside the `except` handler of the primary. -/
def extract_text_from_pdf (primary : Except (List Char) (List (List Char)))
    (fallback : Except (List Char) (List (List Char))) :
    Except (List Char) (List Char) :=
  match primary with
  | .ok pages =>
    .ok (joinBlank (pages.filter (fun t => !t.isEmpty)))
  | .error _ =>
    match fallback with
    | .ok docs => .ok (joinBlank docs)
    | .error fe => .error (("Failed to extract PDF text: ".toList) ++ fe)

/-! ## TXT extraction (`DocumentLoaderService.extract_text_from_txt`) -/

/-- Strict UTF-8 decoding of a byte sequence into code points, as Python's
`codecs` UTF-8 decoder accepts it: rejects stray continuation bytes,
overlong forms, surrogates and code points above U+10FFFF. -/
def utf8Decode : List (Fin 256) → Option (List Nat)
  | [] => some []
  | b :: rest =>
    let n := b.val
    if n < 0x80 then (utf8Decode rest).map (fun s => n :: s)
    else if n < 0xC2 then none
    else if n < 0xE0 then
      match rest with
      | b2 :: rest2 =>
        if 0x80 ≤ b2.val && b2.val < 0xC0 then
          (utf8Decode rest2).map (fun s => ((n - 0xC0) * 64 + (b2.val - 0x80)) :: s)
        else none
      | [] => none
    else if n < 0xF0 then
      match rest with
      | b2 :: b3 :: rest3 =>
        let lo2 := if n = 0xE0 then 0xA0 else 0x80
        let hi2 := if n = 0xED then 0x9F else 0xBF
        if lo2 ≤ b2.val && b2.val ≤ hi2 && 0x80 ≤ b3.val && b3.val < 0xC0 then
          (utf8Decode rest3).map
            (fun s => ((n - 0xE0) * 4096 + (b2.val - 0x80) * 64 + (b3.val - 0x80)) :: s)
        else none
      | _ => none
    else if n ≤ 0xF4 then
      match rest with
      | b2 :: b3 :: b4 :: rest4 =>
        let lo2 := if n = 0xF0 then 0x90 else 0x80
        let hi2 := if n = 0xF4 then 0x8F else 0xBF
        if lo2 ≤ b2.val && b2.val ≤ hi2 && 0x80 ≤ b3.val && b3.val < 0xC0 &&
            0x80 ≤ b4.val && b4.val < 0xC0 then
          (utf8Decode rest4).map
            (fun s => ((n - 0xF0) * 262144 + (b2.val - 0x80) * 4096 +
              (b3.val - 0x80) * 64 + (b4.val - 0x80)) :: s)
        else none
      | _ => none
    else none

/-- Latin-1 decoding: every byte is its own code point; total. -/
def latin1Decode (bs : List (Fin 256)) : Option (List Nat) :=
  some (bs.map Fin.val)

/-- One byte of Windows-1252: bytes 0x80–0x9F map through the table
(five of them are undefined and make strict decoding fail); all other
bytes decode as themselves. -/
def cp1252Byte (n : Nat) : Option Nat :=
  if n = 0x80 then some 0x20AC
  else if n = 0x81 then none
  else if n = 0x82 then some 0x201A
  else if n = 0x83 then some 0x0192
  else if n = 0x84 then some 0x201E
  else if n = 0x85 then some 0x2026
  else if n = 0x86 then some 0x2020
  else if n = 0x87 then some 0x2021
  else if n = 0x88 then some 0x02C6
  else if n = 0x89 then some 0x2030
  else if n = 0x8A then some 0x0160
  else if n = 0x8B then some 0x2039
  else if n = 0x8C then some 0x0152
  else if n = 0x8D then none
  else if n = 0x8E then some 0x017D
  else if n = 0x8F then none
  else if n = 0x90 then none
  else if n = 0x91 then some 0x2018
  else if n = 0x92 then some 0x2019
  else if n = 0x93 then some 0x201C
  else if n = 0x94 then some 0x201D
  else if n = 0x95 then some 0x2022
  else if n = 0x96 then some 0x2013
  else if n = 0x97 then some 0x2014
  else if n = 0x98 then some 0x02DC
  else if n = 0x99 then some 0x2122
  else if n = 0x9A then some 0x0161
  else if n = 0x9B then some 0x203A
  else if n = 0x9C then some 0x0153
  else if n = 0x9D then none
  else if n = 0x9E then some 0x017E
  else if n = 0x9F then some 0x0178
  else some n

/-- Strict Windows-1252 decoding. -/
def cp1252Decode (bs : List (Fin 256)) : Option (List Nat) :=
  bs.mapM (fun b => cp1252Byte b.val)

/-- ISO-8859-1 decoding coincides with Latin-1. -/
def iso88591Decode (bs : List (Fin 256)) : Option (List Nat) :=
  latin1Decode bs

/-- `DocumentLoaderService.extract_text_from_txt`: try UTF-8; on a decode
error walk the alternate encodings `['latin-1', 'cp1252', 'iso-8859-1']`
in order; if all fail, fall back to the autodetecting LangChain
`TextLoader`, whose outcome is the `genericLoader` parameter; if that also
raises, raise the aggregated message. -/
def extract_text_from_txt (genericLoader : Except (List Char) (List Nat))
    (bs : List (Fin 256)) : Except (List Char) (List Nat) :=
  match utf8Decode bs with
  | some s => .ok s
  | none =>
    match [latin1Decode bs, cp1252Decode bs, iso88591Decode bs].findSome? id with
    | some s => .ok s
    | none =>
      match genericLoader with
      | .ok s => .ok s
      | .error e => .error (("Failed to extract TXT text: ".toList) ++ e)

/-! ## Temporary storage (`uploads/`), `cleanup_file`, `cleanup_old_files`

The uploads directory is modelled as a list of directory entries.  Each
entry records whether it is a regular file, its last-modified time, and
whether an `unlink` on it succeeds (`unlink` may raise, e.g. on a
permission error; both `cleanup_file` and `cleanup_old_files` swallow such
errors). -/

structure FsEntry where
  name : Nat
  isFile : Bool
  mtime : Int
  delOk : Bool
deriving DecidableEq

/-- `DocumentLoaderService.cleanup_file`: if the path exists, try to
unlink it; a failing unlink is swallowed and the entry stays. -/
def cleanup_file (name : Nat) (fs : List FsEntry) : List FsEntry :=
  fs.filter (fun e => !(e.name == name && e.delOk))

/-- `DocumentLoaderService.cleanup_old_files`: for every regular file in
the uploads directory whose age `now - mtime` strictly exceeds
`max_age_hours * 3600` seconds, attempt to unlink it, counting the
successful deletions; unlink errors are swallowed and do not stop the
sweep.  (The directory itself always exists: `__init__` creates it.) -/
def cleanup_old_files (now : Int) (max_age_hours : Nat) :
    List FsEntry → Nat × List FsEntry
  | [] => (0, [])
  | e :: rest =>
    let r := cleanup_old_files now max_age_hours rest
    if e.isFile && decide ((max_age_hours : Int) * 3600 < now - e.mtime) then
      if e.delOk then (r.1 + 1, r.2)
      else (r.1, e :: r.2)
    else (r.1, e :: r.2)

/-! ## `extract_text` and `process_uploaded_file`

`extract_text` dispatches on the file extension to one of the three
format extractors and normalizes the result.  The dispatched extractor
call is modelled by its outcome `rawExtract` (the branch on the extension
only selects which external reader produced it; validation has already
pinned the extension to a supported one on every path that reaches it). -/

/-- `DocumentLoaderService.extract_text`: raw extraction followed by the
mandatory normalization step. -/
def extract_text (rawExtract : Except (List Char) (List Char)) :
    Except (List Char) (List Char) :=
  match rawExtract with
  | .error e => .error e
  | .ok text => .ok (normalize_text text)

/-- The metadata dict built by `process_uploaded_file`. -/
structure UploadMeta where
  original_filename : List Char
  file_type : List Char
  file_size_bytes : Nat
  extracted_length : Nat
  extraction_timestamp : List Char
deriving DecidableEq

/-- The two exception classes `process_uploaded_file` can raise, which the
route distinguishes: `ValueError` from validation (400) and any other
exception from extraction (500). -/
inductive ProcError
  | valueError (reason : ValidationReason)
  | extractionError (msg : List Char)
deriving DecidableEq

/-- `DocumentLoaderService.process_uploaded_file`: validate, save the
upload under a fresh timestamped name, extract + normalize, and in a
`finally` block delete the temporary file when `cleanup_after` is set.
`savedName` is the unique name chosen by `save_upload`, `saveDelOk`
whether an unlink of that file succeeds, `now`/`nowIso` the wall clock. -/
def process_uploaded_file (file_content_len : Nat) (filename : List Char)
    (rawExtract : Except (List Char) (List Char))
    (savedName : Nat) (saveDelOk : Bool) (now : Int) (nowIso : List Char)
    (cleanup_after : Bool) (fs : List FsEntry) :
    Except ProcError (List Char × UploadMeta) × List FsEntry :=
  match validate_file filename file_content_len with
  | some r => (.error (.valueError r), fs)
  | none =>
    let fs1 := fs ++ [⟨savedName, true, now, saveDelOk⟩]
    match extract_text rawExtract with
    | .error e =>
      (.error (.extractionError e),
       if cleanup_after then cleanup_file savedName fs1 else fs1)
    | .ok text =>
      let meta : UploadMeta :=
        { original_filename := filename
          file_type := (pathSuffix filename).map Char.toLower
          file_size_bytes := file_content_len
          extracted_length := text.length
          extraction_timestamp := nowIso }
      (.ok (text, meta),
       if cleanup_after then cleanup_file savedName fs1 else fs1)

/-! ## The upload pipeline (`analyze_uploaded_document`)

The route sequences Validate/Extract (via `process_uploaded_file`), the
length gate, Analyze, Visualize, Notify and response assembly.  The three
external collaborators — the fraud agent, the visualization service and
the mailer — are modelled by their outcomes (`Except`): the route only
observes the returned value or the raised exception. -/

structure DocumentFraudFlag where
  category : List Char
  severity : List Char
  description : List Char
  evidence : List Char
  confidence : Int
  amount_involved : Option Int
deriving DecidableEq

structure AnalysisVerdict where
  risk_level : List Char
  summary : List Char
  list_of_flags : List DocumentFraudFlag
  recommendations : List (List Char)
  total_flagged_amount : Int
  document_metadata : List (List Char × List Char)
deriving DecidableEq

/-- The dict returned by `email_service.send_analysis_report_async`: a
`success` flag plus optional `message` and `error` keys. -/
structure EmailSendResult where
  success : Bool
  message : Option (List Char)
  error : Option (List Char)
deriving DecidableEq

/-- The `email_status` dict the route builds (the `DeliveryOutcome`). -/
structure EmailStatus where
  success : Bool
  recipient : List Char
  message : Option (List Char)
  error : Option (List Char)
deriving DecidableEq

/-- `DocumentAuditResponse` (the fields the upload route populates). -/
structure DocumentAuditResponse where
  risk_level : List Char
  summary : List Char
  list_of_flags : List DocumentFraudFlag
  recommendations : List (List Char)
  total_flagged_amount : Int
  document_metadata : List (List Char × List Char)
  visualizations : Option (List (List Char × List Char))
  email_sent : Option EmailStatus
deriving DecidableEq

/-- `FileUploadResponse`. -/
structure FileUploadResponse where
  filename : List Char
  file_type : List Char
  file_size_bytes : Nat
  extracted_text_length : Nat
  analysis : DocumentAuditResponse
deriving DecidableEq

/-- The `HTTPException`s `analyze_uploaded_document` can raise after the
file has been read. -/
inductive ApiError
  | validationError (reason : ValidationReason)
  | extractionFailed (msg : List Char)
  | insufficientText (got : Nat)
  | analysisFailed (msg : List Char)
deriving DecidableEq

/-- HTTP status code of each error branch of the route. -/
def ApiError.statusCode : ApiError → Nat
  | .validationError _ => 400
  | .extractionFailed _ => 500
  | .insufficientText _ => 400
  | .analysisFailed _ => 500

/-- Python `dict.update` for one key of a string-keyed dict. -/
def updateAssoc (m : List (List Char × List Char)) (k v : List Char) :
    List (List Char × List Char) :=
  if m.any (fun p => p.1 == k) then
    m.map (fun p => if p.1 == k then (k, v) else p)
  else m ++ [(k, v)]

/-- The `analysis_metadata` merge in the route: copy the verdict's
metadata and update it with the four extraction-metadata keys. -/
def mergeMeta (base : List (List Char × List Char)) (meta : UploadMeta) :
    List (List Char × List Char) :=
  let m1 := updateAssoc base ("original_filename".toList) meta.original_filename
  let m2 := updateAssoc m1 ("file_type".toList) meta.file_type
  let m3 := updateAssoc m2 ("file_size_bytes".toList)
    ((Nat.repr meta.file_size_bytes).toList)
  updateAssoc m3 ("extraction_timestamp".toList) meta.extraction_timestamp

/-- `analyze_uploaded_document` (route `POST /api/v1/upload/analyze`),
from the point where the file content has been read.  Fatal stages abort
with an `ApiError`; the Visualize and Notify stages degrade: a failed
visualization leaves `visualizations = none`, a failed send leaves a
`success := false` delivery record, and neither aborts the call. -/
def analyze_uploaded_document (file_content_len : Nat) (filename : List Char)
    (recipient_email : Option (List Char))
    (rawExtract : Except (List Char) (List Char))
    (savedName : Nat) (saveDelOk : Bool) (now : Int) (nowIso : List Char)
    (analyzeOutcome : Except (List Char) AnalysisVerdict)
    (vizOutcome : Except (List Char) (List Char))
    (emailOutcome : Except (List Char) EmailSendResult)
    (fs : List FsEntry) :
    Except ApiError FileUploadResponse × List FsEntry :=
  match process_uploaded_file file_content_len filename rawExtract
    savedName saveDelOk now nowIso true fs with
  | (.error (.valueError r), fs2) => (.error (.validationError r), fs2)
  | (.error (.extractionError m), fs2) => (.error (.extractionFailed m), fs2)
  | (.ok (extracted_text, meta), fs2) =>
    if extracted_text.length < 50 then
      (.error (.insufficientText extracted_text.length), fs2)
    else
      match analyzeOutcome with
      | .error m => (.error (.analysisFailed m), fs2)
      | .ok verdict =>
        let visualizations := match vizOutcome with
          | .ok path => some [(("dashboard".toList), path)]
          | .error _ => none
        let email_status : Option EmailStatus := match recipient_email with
          | none => none
          | some rcpt =>
            some (match emailOutcome with
              | .ok res =>
                { success := res.success
                  recipient := rcpt
                  message := some (res.message.getD ("Email sent successfully".toList))
                  error := if res.success then none else res.error }
              | .error e =>
                { success := false, recipient := rcpt
                  message := none, error := some e })
        let audit : DocumentAuditResponse :=
          { risk_level := verdict.risk_level
            summary := verdict.summary
            list_of_flags := verdict.list_of_flags
            recommendations := verdict.recommendations
            total_flagged_amount := verdict.total_flagged_amount
            document_metadata := mergeMeta verdict.document_metadata meta
            visualizations := visualizations
            email_sent := email_status }
        (.ok { filename := meta.original_filename
               file_type := meta.file_type
               file_size_bytes := meta.file_size_bytes
               extracted_text_length := meta.extracted_length
               analysis := audit }, fs2)

/-- Projection: the successful response of a route outcome, if any. -/
def responseOf : Except ApiError FileUploadResponse → Option FileUploadResponse
  | .ok r => some r
  | .error _ => none

/-! ## Lemmas about stripping -/

lemma dropWhile_isPySpace_eq_self {l : List Char} (h : noWsHead l = true) :
    l.dropWhile isPySpace = l := by
  cases l with
  | nil => rfl
  | cons c t =>
    simp only [noWsHead, List.head?_cons, Option.all_some, Bool.not_eq_true'] at h
    simp [List.dropWhile_cons, h]

lemma noWsHead_dropWhile (l : List Char) :
    noWsHead (l.dropWhile isPySpace) = true := by
  induction l with
  | nil => rfl
  | cons c t ih =>
    by_cases h : isPySpace c = true
    · simpa [List.dropWhile_cons, h] using ih
    · simp [List.dropWhile_cons, h, noWsHead]

lemma getLast?_dropWhile_of_ne_nil {l : List Char}
    (h : l.dropWhile isPySpace ≠ []) :
    (l.dropWhile isPySpace).getLast? = l.getLast? := by
  induction l with
  | nil => simp at h
  | cons c t ih =>
    by_cases hc : isPySpace c = true
    · rw [List.dropWhile_cons] at h ⊢
      simp only [hc, if_true] at h ⊢
      cases ht : t with
      | nil => rw [ht] at h; simp at h
      | cons x t2 =>
        rw [← ht]
        rw [ih (ht ▸ h)]
        rw [ht, List.getLast?_cons_cons]
    · rw [List.dropWhile_cons]
      simp [hc]

lemma pyStrip_eq_self {l : List Char} (h1 : noWsHead l = true)
    (h2 : noWsLast l = true) : pyStrip l = l := by
  unfold pyStrip
  rw [dropWhile_isPySpace_eq_self h1]
  have hr : noWsHead l.reverse = true := by
    simp only [noWsHead, List.head?_reverse]
    exact h2
  rw [dropWhile_isPySpace_eq_self hr, List.reverse_reverse]

lemma noWsLast_pyStrip (l : List Char) : noWsLast (pyStrip l) = true := by
  unfold pyStrip
  simp only [noWsLast, List.getLast?_reverse]
  exact noWsHead_dropWhile _

lemma noWsHead_pyStrip (l : List Char) : noWsHead (pyStrip l) = true := by
  unfold pyStrip
  simp only [noWsHead, List.head?_reverse]
  by_cases hb : (l.dropWhile isPySpace).reverse.dropWhile isPySpace = []
  · simp [hb]
  · rw [getLast?_dropWhile_of_ne_nil hb, List.getLast?_reverse]
    have := noWsHead_dropWhile l
    simpa [noWsHead] using this

lemma mem_of_mem_pyStrip {x : Char} {l : List Char} (h : x ∈ pyStrip l) :
    x ∈ l := by
  unfold pyStrip at h
  rw [List.mem_reverse] at h
  have h2 := (List.dropWhile_sublist isPySpace).mem h
  rw [List.mem_reverse] at h2
  exact (List.dropWhile_sublist isPySpace).mem h2

lemma pyStrip_ne_nil_of {l : List Char} (hne : l ≠ [])
    (h1 : noWsHead l = true) (h2 : noWsLast l = true) : pyStrip l ≠ [] := by
  rw [pyStrip_eq_self h1 h2]; exact hne

/-! ## Lemmas about `chain2Free` -/

lemma chain2Free_tail {c x : Char} {w : List Char}
    (h : chain2Free c (x :: w) = true) : chain2Free c w = true := by
  cases w with
  | nil => rfl
  | cons b t =>
    simp only [chain2Free, Bool.and_eq_true] at h
    exact h.2

lemma chain2Free_cons_of {c x : Char} {w : List Char}
    (hw : chain2Free c w = true) (hx : x ≠ c ∨ w.head? ≠ some c) :
    chain2Free c (x :: w) = true := by
  cases w with
  | nil => rfl
  | cons b t =>
    simp only [chain2Free, Bool.and_eq_true, hw, and_true,
      Bool.not_eq_true', Bool.and_eq_false_iff]
    simp only [List.head?_cons, ne_eq, Option.some.injEq] at hx
    rcases hx with hx | hx
    · left; simp [hx]
    · right; simp [hx]

lemma chain2Free_of_not_mem {c : Char} {l : List Char} (h : c ∉ l) :
    chain2Free c l = true := by
  induction l with
  | nil => rfl
  | cons a t ih =>
    have ha : a ≠ c := fun e => h (e ▸ List.mem_cons_self a t)
    have ht : c ∉ t := fun m => h (List.mem_cons_of_mem _ m)
    exact chain2Free_cons_of (ih ht) (Or.inl ha)

lemma chain2Free_append {c : Char} {xs ys : List Char}
    (hx : chain2Free c xs = true) (hy : chain2Free c ys = true)
    (hb : ¬(xs.getLast? = some c ∧ ys.head? = some c)) :
    chain2Free c (xs ++ ys) = true := by
  induction xs with
  | nil => simpa using hy
  | cons a t ih =>
    cases t with
    | nil =>
      simp only [List.cons_append, List.nil_append]
      apply chain2Free_cons_of hy
      by_cases hac : a = c
      · right
        intro hh
        exact hb ⟨by simp [hac], hh⟩
      · left; exact hac
    | cons b t2 =>
      have hb' : ¬((b :: t2).getLast? = some c ∧ ys.head? = some c) := by
        rw [← List.getLast?_cons_cons (a := a)]
        exact hb
      have h1 := ih (chain2Free_tail hx) hb'
      simp only [List.cons_append] at h1 ⊢
      apply chain2Free_cons_of h1
      simp only [chain2Free, Bool.and_eq_true, Bool.not_eq_true',
        Bool.and_eq_false_iff] at hx
      rcases hx.1 with h | h
      · left; simpa using h
      · right
        simp only [List.cons_append, List.head?_cons, ne_eq, Option.some.injEq]
        simpa using h

/-! ## Lemmas about `collapseSpaces` -/

lemma head?_collapseSpaces (l : List Char) :
    (collapseSpaces l).head? = l.head? := by
  induction l with
  | nil => rfl
  | cons a t ih =>
    cases t with
    | nil => rfl
    | cons b t2 =>
      by_cases h : (a = ' ' && b = ' ') = true
      · simp only [collapseSpaces, h, if_true]
        rw [ih]
        simp only [Bool.and_eq_true, decide_eq_true_eq] at h
        simp [h.1, h.2]
      · simp only [collapseSpaces, h, if_false]
        simp

lemma getLast?_collapseSpaces (l : List Char) :
    (collapseSpaces l).getLast? = l.getLast? := by
  induction l with
  | nil => rfl
  | cons a t ih =>
    cases t with
    | nil => rfl
    | cons b t2 =>
      by_cases h : (a = ' ' && b = ' ') = true
      · simp only [collapseSpaces, h, if_true]
        rw [ih, List.getLast?_cons_cons]
      · rw [collapseSpaces, if_neg h]
        have hne : collapseSpaces (b :: t2) ≠ [] := by
          intro hnil
          have := head?_collapseSpaces (b :: t2)
          rw [hnil] at this
          simp at this
        rw [show a :: collapseSpaces (b :: t2) =
          [a] ++ collapseSpaces (b :: t2) from rfl,
          List.getLast?_append_of_ne_nil _ hne, ih,
          List.getLast?_cons_cons]

lemma collapseSpaces_ne_nil {l : List Char} (h : l ≠ []) :
    collapseSpaces l ≠ [] := by
  intro hnil
  have := head?_collapseSpaces l
  rw [hnil] at this
  cases l with
  | nil => exact h rfl
  | cons a t => simp at this

lemma mem_of_mem_collapseSpaces {x : Char} {l : List Char}
    (h : x ∈ collapseSpaces l) : x ∈ l := by
  induction l with
  | nil => simp [collapseSpaces] at h
  | cons a t ih =>
    cases t with
    | nil => simpa [collapseSpaces] using h
    | cons b t2 =>
      by_cases hc : (a = ' ' && b = ' ') = true
      · rw [collapseSpaces, if_pos hc] at h
        exact List.mem_cons_of_mem _ (ih h)
      · rw [collapseSpaces, if_neg hc] at h
        rcases List.mem_cons.mp h with h | h
        · exact h ▸ List.mem_cons_self _ _
        · exact List.mem_cons_of_mem _ (ih h)

lemma chain2Free_space_collapseSpaces (l : List Char) :
    chain2Free ' ' (collapseSpaces l) = true := by
  induction l with
  | nil => rfl
  | cons a t ih =>
    cases t with
    | nil => rfl
    | cons b t2 =>
      by_cases hc : (a = ' ' && b = ' ') = true
      · rw [collapseSpaces, if_pos hc]
        exact ih
      · rw [collapseSpaces, if_neg hc]
        apply chain2Free_cons_of ih
        simp only [Bool.and_eq_true, decide_eq_true_eq] at hc
        by_cases ha : a = ' '
        · right
          rw [head?_collapseSpaces, List.head?_cons]
          intro hh
          apply hc
          exact ⟨ha, by simpa using hh⟩
        · left; exact ha

lemma collapseSpaces_eq_self {l : List Char}
    (h : chain2Free ' ' l = true) : collapseSpaces l = l := by
  induction l with
  | nil => rfl
  | cons a t ih =>
    cases t with
    | nil => rfl
    | cons b t2 =>
      simp only [chain2Free, Bool.and_eq_true, Bool.not_eq_true',
        Bool.and_eq_false_iff] at h
      have hc : (a = ' ' && b = ' ') = false := by
        rcases h.1 with h1 | h1 <;> simp [h1]
      rw [collapseSpaces, if_neg (by simp [hc]), ih h.2]

lemma collapseSpaces_cons_of_ne {c : Char} (hc : c ≠ ' ') (ys : List Char) :
    collapseSpaces (c :: ys) = c :: collapseSpaces ys := by
  cases ys with
  | nil => rfl
  | cons y t => rw [collapseSpaces, if_neg (by simp [hc])]

lemma collapseSpaces_append_cons {c : Char} (hc : c ≠ ' ') (ys : List Char) :
    ∀ xs, collapseSpaces (xs ++ c :: ys) =
      collapseSpaces xs ++ c :: collapseSpaces ys := by
  intro xs
  induction xs with
  | nil =>
    simp only [List.nil_append, collapseSpaces]
    exact collapseSpaces_cons_of_ne hc ys
  | cons a t ih =>
    cases t with
    | nil =>
      simp only [List.cons_append, List.nil_append]
      conv_lhs => rw [collapseSpaces]
      rw [if_neg (by simp [hc]), collapseSpaces_cons_of_ne hc ys]
      rfl
    | cons b t2 =>
      simp only [List.cons_append] at ih ⊢
      by_cases hab : (a = ' ' && b = ' ') = true
      · rw [collapseSpaces, if_pos hab, ih,
          collapseSpaces, if_pos hab]
      · rw [collapseSpaces, if_neg hab, ih,
          collapseSpaces, if_neg hab]
        rfl

lemma collapseSpaces_joinNl (L : List (List Char)) :
    collapseSpaces (joinNl L) = joinNl (L.map collapseSpaces) := by
  induction L with
  | nil => rfl
  | cons l L' ih =>
    cases L' with
    | nil => rfl
    | cons m L'' =>
      have hmap : (l :: m :: L'').map collapseSpaces =
          collapseSpaces l :: (m :: L'').map collapseSpaces := rfl
      rw [hmap]
      show collapseSpaces (l ++ '\n' :: joinNl (m :: L'')) =
        collapseSpaces l ++ '\n' :: joinNl ((m :: L'').map collapseSpaces)
      rw [collapseSpaces_append_cons (by decide) _ l, ih]

/-! ## Lemmas about `splitOnNl` and `joinNl` -/

lemma splitOnNl_ne_nil (t : List Char) : splitOnNl t ≠ [] := by
  cases t with
  | nil => simp [splitOnNl]
  | cons c rest =>
    by_cases hc : c = '\n'
    · simp [splitOnNl, hc]
    · cases h : splitOnNl rest with
      | nil => simp [splitOnNl, hc, h]
      | cons l ls => simp [splitOnNl, hc, h]

lemma not_nl_mem_of_mem_splitOnNl :
    ∀ (t : List Char) {l : List Char}, l ∈ splitOnNl t → '\n' ∉ l := by
  intro t
  induction t with
  | nil =>
    intro l h
    simp only [splitOnNl, List.mem_singleton] at h
    simp [h]
  | cons c rest ih =>
    intro l h
    by_cases hc : c = '\n'
    · rw [splitOnNl, if_pos hc] at h
      rcases List.mem_cons.mp h with h | h
      · simp [h]
      · exact ih h
    · rw [splitOnNl, if_neg hc] at h
      cases hs : splitOnNl rest with
      | nil => exact absurd hs (splitOnNl_ne_nil rest)
      | cons m ms =>
        rw [hs] at h
        rcases List.mem_cons.mp h with h | h
        · subst h
          intro hmem
          rcases List.mem_cons.mp hmem with h | h
          · exact hc h.symm
          · have hm : m ∈ splitOnNl rest := by rw [hs]; exact List.mem_cons_self m ms
            exact ih hm h
        · have hm : l ∈ splitOnNl rest := by rw [hs]; exact List.mem_cons_of_mem m h
          exact ih hm

lemma splitOnNl_of_not_mem {l : List Char} (h : '\n' ∉ l) :
    splitOnNl l = [l] := by
  induction l with
  | nil => rfl
  | cons c t ih =>
    have hc : c ≠ '\n' := fun e => h (e ▸ List.mem_cons_self c t)
    have ht : '\n' ∉ t := fun m => h (List.mem_cons_of_mem _ m)
    rw [splitOnNl, if_neg hc, ih ht]

lemma splitOnNl_append_nl {l : List Char} (h : '\n' ∉ l) (rest : List Char) :
    splitOnNl (l ++ '\n' :: rest) = l :: splitOnNl rest := by
  induction l with
  | nil =>
    simp only [List.nil_append]
    rw [splitOnNl, if_pos rfl]
  | cons c t ih =>
    have hc : c ≠ '\n' := fun e => h (e ▸ List.mem_cons_self c t)
    have ht : '\n' ∉ t := fun m => h (List.mem_cons_of_mem _ m)
    simp only [List.cons_append]
    rw [splitOnNl, if_neg hc, ih ht]

lemma splitOnNl_joinNl {L : List (List Char)} (hL : L ≠ [])
    (h : ∀ l ∈ L, '\n' ∉ l) : splitOnNl (joinNl L) = L := by
  induction L with
  | nil => exact absurd rfl hL
  | cons l L' ih =>
    cases L' with
    | nil =>
      show splitOnNl (joinNl [l]) = [l]
      rw [joinNl]
      exact splitOnNl_of_not_mem (h l (List.mem_cons_self l []))
    | cons m L'' =>
      show splitOnNl (l ++ '\n' :: joinNl (m :: L'')) = l :: m :: L''
      rw [splitOnNl_append_nl (h l (List.mem_cons_self _ _)),
        ih (by simp) (fun x hx => h x (List.mem_cons_of_mem _ hx))]

lemma joinNl_cons_ne_nil {l : List Char} (h : l ≠ []) (L : List (List Char)) :
    joinNl (l :: L) ≠ [] := by
  cases L with
  | nil => exact h
  | cons m L' => simp [joinNl]

lemma head?_joinNl {l : List Char} (h : l ≠ []) (L : List (List Char)) :
    (joinNl (l :: L)).head? = l.head? := by
  cases L with
  | nil => rfl
  | cons m L' =>
    show (l ++ '\n' :: joinNl (m :: L')).head? = l.head?
    exact List.head?_append_of_ne_nil l h

lemma noWsLast_joinNl {L : List (List Char)}
    (h : ∀ m ∈ L, m ≠ [] ∧ noWsLast m = true) :
    noWsLast (joinNl L) = true := by
  induction L with
  | nil => rfl
  | cons l L' ih =>
    cases L' with
    | nil => exact (h l (List.mem_cons_self _ _)).2
    | cons m L'' =>
      have hm := h m (List.mem_cons_of_mem _ (List.mem_cons_self _ _))
      have hw : joinNl (m :: L'') ≠ [] := joinNl_cons_ne_nil hm.1 _
      show noWsLast (l ++ '\n' :: joinNl (m :: L'')) = true
      unfold noWsLast
      rw [List.getLast?_append_cons,
        show ('\n' :: joinNl (m :: L'')) = ['\n'] ++ joinNl (m :: L'') from rfl,
        List.getLast?_append_of_ne_nil _ hw]
      have := ih (fun x hx => h x (List.mem_cons_of_mem _ hx))
      unfold noWsLast at this
      exact this

lemma chain2Free_nl_joinNl {L : List (List Char)}
    (h : ∀ m ∈ L, m ≠ [] ∧ '\n' ∉ m) :
    chain2Free '\n' (joinNl L) = true := by
  induction L with
  | nil => rfl
  | cons l L' ih =>
    cases L' with
    | nil => exact chain2Free_of_not_mem (h l (List.mem_cons_self _ _)).2
    | cons m L'' =>
      have hl := h l (List.mem_cons_self _ _)
      have hm := h m (List.mem_cons_of_mem _ (List.mem_cons_self _ _))
      have hw := ih (fun x hx => h x (List.mem_cons_of_mem _ hx))
      show chain2Free '\n' (l ++ '\n' :: joinNl (m :: L'')) = true
      apply chain2Free_append (chain2Free_of_not_mem hl.2)
      · apply chain2Free_cons_of hw
        right
        rw [head?_joinNl hm.1]
        intro hh
        exact hm.2 ((List.mem_of_mem_head? hh))
      · rintro ⟨hlast, -⟩
        exact hl.2 (List.mem_of_mem_getLast? hlast)

/-! ## Normal form of `normalize_text` output -/

lemma map_eq_self_of {α : Type} {l : List α} {f : α → α}
    (h : ∀ x ∈ l, f x = x) : l.map f = l := by
  induction l with
  | nil => rfl
  | cons a t ih =>
    simp only [List.map_cons, h a (List.mem_cons_self a t)]
    rw [ih (fun x hx => h x (List.mem_cons_of_mem _ hx))]

lemma pyStrip_joinNl_eq {L : List (List Char)} (hLne : L ≠ [])
    (hgood : ∀ l ∈ L, l ≠ [] ∧ noWsHead l = true ∧ noWsLast l = true) :
    pyStrip (joinNl L) = joinNl L := by
  cases L with
  | nil => exact absurd rfl hLne
  | cons l0 L' =>
    have h0 := hgood l0 (List.mem_cons_self _ _)
    apply pyStrip_eq_self
    · unfold noWsHead
      rw [head?_joinNl h0.1]
      have := h0.2.1
      unfold noWsHead at this
      exact this
    · exact noWsLast_joinNl (fun m hm => ⟨(hgood m hm).1, (hgood m hm).2.2⟩)

lemma good_map_collapse {L : List (List Char)}
    (hgood : ∀ l ∈ L, l ≠ [] ∧ noWsHead l = true ∧ noWsLast l = true ∧ '\n' ∉ l) :
    ∀ m ∈ L.map collapseSpaces,
      m ≠ [] ∧ noWsHead m = true ∧ noWsLast m = true ∧ '\n' ∉ m := by
  intro m hm
  rw [List.mem_map] at hm
  obtain ⟨m0, h0, rfl⟩ := hm
  have hg := hgood m0 h0
  refine ⟨collapseSpaces_ne_nil hg.1, ?_, ?_,
    fun hx => hg.2.2.2 (mem_of_mem_collapseSpaces hx)⟩
  · have := hg.2.1
    unfold noWsHead at this ⊢
    rw [head?_collapseSpaces]
    exact this
  · have := hg.2.2.1
    unfold noWsLast at this ⊢
    rw [getLast?_collapseSpaces]
    exact this

lemma normalize_text_form (t : List Char) :
    normalize_text t = [] ∨
    ∃ L : List (List Char), L ≠ [] ∧
      (∀ l ∈ L, l ≠ [] ∧ noWsHead l = true ∧ noWsLast l = true ∧ '\n' ∉ l) ∧
      normalize_text t = collapseSpaces (joinNl L) := by
  by_cases ht : t.isEmpty = true
  · left
    rw [normalize_text, if_pos ht]
  · have hbody : normalize_text t =
        pyStrip (collapseSpaces (joinNl
          (((splitOnNl t).map pyStrip).filter (fun l => !l.isEmpty)))) := by
      rw [normalize_text, if_neg ht]
    have hgood : ∀ l ∈ ((splitOnNl t).map pyStrip).filter (fun l => !l.isEmpty),
        l ≠ [] ∧ noWsHead l = true ∧ noWsLast l = true ∧ '\n' ∉ l := by
      intro l hl
      rw [List.mem_filter] at hl
      obtain ⟨hmem, hne⟩ := hl
      rw [List.mem_map] at hmem
      obtain ⟨m, hm, rfl⟩ := hmem
      exact ⟨by simpa [List.isEmpty_iff] using hne,
        noWsHead_pyStrip m, noWsLast_pyStrip m,
        fun hmem2 => not_nl_mem_of_mem_splitOnNl t hm (mem_of_mem_pyStrip hmem2)⟩
    cases hLnil : ((splitOnNl t).map pyStrip).filter (fun l => !l.isEmpty) with
    | nil =>
      left
      rw [hbody, hLnil]
      rfl
    | cons l0 L' =>
      right
      rw [hLnil] at hbody hgood
      refine ⟨l0 :: L', by simp, hgood, ?_⟩
      rw [hbody, collapseSpaces_joinNl]
      exact pyStrip_joinNl_eq (by simp)
        (fun m hm => ⟨(good_map_collapse hgood m hm).1,
          (good_map_collapse hgood m hm).2.1,
          (good_map_collapse hgood m hm).2.2.1⟩)

/-- Claim C6: for every input string, the output of `normalize_text` contains no
blank lines (no two consecutive newlines, and every line of the non-empty
output is non-empty), no run of two or more consecutive spaces, and it is
trimmed of leading and trailing whitespace (`pyStrip` fixes it). -/
theorem normalize_text_invariants (t : List Char) :
    chain2Free '\n' (normalize_text t) = true ∧
    chain2Free ' ' (normalize_text t) = true ∧
    pyStrip (normalize_text t) = normalize_text t ∧
    (normalize_text t = [] ∨ ∀ l ∈ splitOnNl (normalize_text t), l ≠ []) := by
  rcases normalize_text_form t with h | ⟨L, hLne, hgood, heq⟩
  · rw [h]
    exact ⟨rfl, rfl, rfl, Or.inl rfl⟩
  · rw [heq, collapseSpaces_joinNl]
    have hmapne : L.map collapseSpaces ≠ [] := by simpa using hLne
    have hmapgood := good_map_collapse hgood
    refine ⟨?_, ?_, ?_, ?_⟩
    · exact chain2Free_nl_joinNl
        (fun m hm => ⟨(hmapgood m hm).1, (hmapgood m hm).2.2.2⟩)
    · rw [← collapseSpaces_joinNl]
      exact chain2Free_space_collapseSpaces _
    · exact pyStrip_joinNl_eq hmapne
        (fun m hm => ⟨(hmapgood m hm).1, (hmapgood m hm).2.1,
          (hmapgood m hm).2.2.1⟩)
    · right
      rw [splitOnNl_joinNl hmapne (fun m hm => (hmapgood m hm).2.2.2)]
      exact fun l hl => (hmapgood l hl).1

/-- Claim C7: normalization is idempotent — applying `normalize_text` to an
already-normalized string returns it unchanged. -/
theorem normalize_text_idempotent (t : List Char) :
    normalize_text (normalize_text t) = normalize_text t := by
  rcases normalize_text_form t with h | ⟨L, hLne, hgood, heq⟩
  · rw [h]
    rfl
  · rw [heq, collapseSpaces_joinNl]
    have hmapne : L.map collapseSpaces ≠ [] := by simpa using hLne
    have hmapgood := good_map_collapse hgood
    cases hM : L.map collapseSpaces with
    | nil => exact absurd hM hmapne
    | cons m0 M' =>
      rw [← hM]
      have hjne : joinNl (L.map collapseSpaces) ≠ [] := by
        rw [hM]
        exact joinNl_cons_ne_nil (hmapgood m0 (by rw [hM]; exact List.mem_cons_self _ _)).1 _
      rw [normalize_text, if_neg (by simpa [List.isEmpty_iff] using hjne)]
      show pyStrip (collapseSpaces (joinNl
        (((splitOnNl (joinNl (L.map collapseSpaces))).map pyStrip).filter
          (fun l => !l.isEmpty)))) = joinNl (L.map collapseSpaces)
      rw [splitOnNl_joinNl hmapne (fun m hm => (hmapgood m hm).2.2.2)]
      rw [map_eq_self_of (fun m hm => pyStrip_eq_self (hmapgood m hm).2.1
        (hmapgood m hm).2.2.1)]
      rw [List.filter_eq_self.mpr
        (fun m hm => by simpa [List.isEmpty_iff] using (hmapgood m hm).1)]
      rw [collapseSpaces_joinNl, map_eq_self_of (fun m hm => ?_)]
      · exact pyStrip_joinNl_eq hmapne
          (fun m hm => ⟨(hmapgood m hm).1, (hmapgood m hm).2.1,
            (hmapgood m hm).2.2.1⟩)
      · rw [List.mem_map] at hm
        obtain ⟨m0', h0, rfl⟩ := hm
        exact collapseSpaces_eq_self (chain2Free_space_collapseSpaces m0')

/-! ## Validation theorems -/

/-- Claim C3 counterexample: a zero-byte file whose extension is unsupported is
rejected with the unsupported-type reason, not the empty-file reason —
the extension check runs first, so "for every filename" fails. -/
theorem validate_file_zero_size_unsupported_ext :
    validate_file ("report.exe".toList) 0 = some ValidationReason.unsupportedType ∧
    some ValidationReason.unsupportedType ≠ some ValidationReason.emptyFile := by
  constructor
  · decide
  · decide

/-- Claim C3, amended: for every filename whose lower-cased extension is in the
supported set, a file of size 0 is rejected with the empty-file reason. -/
theorem validate_file_zero_size_empty_reason (filename : List Char)
    (h : SUPPORTED_EXTENSIONS.contains
      ((pathSuffix filename).map Char.toLower) = true) :
    validate_file filename 0 = some ValidationReason.emptyFile := by
  simp only [validate_file, MAX_FILE_SIZE_BYTES, h]
  simp

/-- Witness for the amended C3 theorem at the concrete filename `a.txt`. -/
theorem validate_file_zero_size_empty_reason_witness :
    SUPPORTED_EXTENSIONS.contains
      ((pathSuffix ("a.txt".toList)).map Char.toLower) = true ∧
    validate_file ("a.txt".toList) 0 = some ValidationReason.emptyFile :=
  ⟨by decide, validate_file_zero_size_empty_reason _ (by decide)⟩

/-! ## PDF strategy-order theorems -/

/-- Claim C2 counterexample: when the primary PyPDF2 strategy succeeds but every
page yields empty text, the result is the empty extraction, identical
whether the fallback would succeed with non-empty text or raise — the
fallback is not consulted on empty primary output. -/
theorem extract_text_from_pdf_empty_primary_skips_fallback :
    extract_text_from_pdf (.ok [[]]) (.ok [("hello".toList)]) = .ok [] ∧
    extract_text_from_pdf (.ok [[]]) (.error ("boom".toList)) = .ok [] ∧
    ("hello".toList : List Char) ≠ [] := by
  refine ⟨rfl, rfl, ?_⟩
  decide

/-- Claim C2, amended: the fallback is consulted exactly when the primary
strategy raises; a primary that returns page texts (even all-empty) wins
with the blank-line join of its non-empty pages, a raising primary defers
to the fallback's join, and only when both raise does extraction fail
with the aggregated cause. -/
theorem extract_text_from_pdf_strategy_order :
    (∀ pages fb, extract_text_from_pdf (.ok pages) fb =
      .ok (joinBlank (pages.filter (fun t => !t.isEmpty)))) ∧
    (∀ e docs, extract_text_from_pdf (.error e) (.ok docs) =
      .ok (joinBlank docs)) ∧
    (∀ e fe, extract_text_from_pdf (.error e) (.error fe) =
      .error (("Failed to extract PDF text: ".toList) ++ fe)) :=
  ⟨fun _ _ => rfl, fun _ _ => rfl, fun _ _ => rfl⟩

/-! ## TXT totality theorem -/

/-- Claim C10: TXT extraction is total over file contents: for every byte
sequence it returns the UTF-8 decoding when that succeeds and otherwise
the Latin-1 decoding (which never fails), so it never raises and never
consults the autodetecting generic loader — the result is the same for
every `genericLoader` outcome. -/
theorem extract_text_from_txt_total
    (gl gl' : Except (List Char) (List Nat)) (bs : List (Fin 256)) :
    extract_text_from_txt gl bs =
      .ok (match utf8Decode bs with
        | some s => s
        | none => bs.map Fin.val) ∧
    extract_text_from_txt gl bs = extract_text_from_txt gl' bs := by
  have key : ∀ g : Except (List Char) (List Nat), extract_text_from_txt g bs =
      .ok (match utf8Decode bs with
        | some s => s
        | none => bs.map Fin.val) := by
    intro g
    unfold extract_text_from_txt
    cases h : utf8Decode bs with
    | some s => rfl
    | none => rfl
  exact ⟨key gl, (key gl).trans (key gl').symm⟩

/-! ## Janitor theorems -/

lemma cleanup_old_files_snd (now : Int) (h : Nat) (fs : List FsEntry) :
    (cleanup_old_files now h fs).2 =
      fs.filter (fun e =>
        !(e.isFile && decide ((h : Int) * 3600 < now - e.mtime) && e.delOk)) := by
  induction fs with
  | nil => rfl
  | cons e rest ih =>
    by_cases h1 : (e.isFile && decide ((h : Int) * 3600 < now - e.mtime)) = true
    · by_cases h2 : e.delOk = true
      · simp only [cleanup_old_files, h1, h2, if_true, List.filter_cons]
        rw [ih]
        simp
      · have hd : e.delOk = false := by simpa using h2
        simp only [cleanup_old_files, h1, hd, if_true, Bool.false_eq_true,
          if_false, List.filter_cons]
        rw [ih]
        simp
    · have h1f : (e.isFile && decide ((h : Int) * 3600 < now - e.mtime)) = false := by
        simpa using h1
      simp only [cleanup_old_files, h1f, Bool.false_eq_true, if_false,
        List.filter_cons]
      rw [ih]
      simp [h1f]

lemma cleanup_old_files_fst (now : Int) (h : Nat) (fs : List FsEntry) :
    (cleanup_old_files now h fs).1 =
      (fs.filter (fun e =>
        e.isFile && decide ((h : Int) * 3600 < now - e.mtime) && e.delOk)).length := by
  induction fs with
  | nil => rfl
  | cons e rest ih =>
    by_cases h1 : (e.isFile && decide ((h : Int) * 3600 < now - e.mtime)) = true
    · by_cases h2 : e.delOk = true
      · simp only [cleanup_old_files, h1, h2, if_true, List.filter_cons]
        rw [ih]
        simp
      · have hd : e.delOk = false := by simpa using h2
        simp only [cleanup_old_files, h1, hd, if_true, Bool.false_eq_true,
          if_false, List.filter_cons]
        rw [ih]
        simp
    · have h1f : (e.isFile && decide ((h : Int) * 3600 < now - e.mtime)) = false := by
        simpa using h1
      simp only [cleanup_old_files, h1f, Bool.false_eq_true, if_false,
        List.filter_cons]
      rw [ih]
      simp [h1f]

/-- Claim C8 counterexample: `sweep(maxAge = 0)` does not delete every file in
temporary storage — a regular file whose age is exactly 0 (modified at
the sweep instant) survives, because the source compares `age >
max_age_seconds` strictly. -/
theorem cleanup_old_files_zero_keeps_age_zero_file :
    cleanup_old_files 100 0 [⟨0, true, 100, true⟩] =
      (0, [⟨0, true, 100, true⟩]) := by
  decide

/-- Claim C8, amended: the sweep deletes exactly the regular files whose age
strictly exceeds `maxAge` hours and whose unlink succeeds, returning
their count (so `sweep(0)` deletes every such file of strictly positive
age, not files aged exactly 0); re-running the sweep immediately (same
clock, no new files) deletes 0 files. -/
theorem cleanup_old_files_spec (now : Int) (h : Nat) (fs : List FsEntry) :
    (cleanup_old_files now h fs).2 =
      fs.filter (fun e =>
        !(e.isFile && decide ((h : Int) * 3600 < now - e.mtime) && e.delOk)) ∧
    (cleanup_old_files now h fs).1 =
      (fs.filter (fun e =>
        e.isFile && decide ((h : Int) * 3600 < now - e.mtime) && e.delOk)).length ∧
    (cleanup_old_files now h (cleanup_old_files now h fs).2).1 = 0 := by
  refine ⟨cleanup_old_files_snd now h fs, cleanup_old_files_fst now h fs, ?_⟩
  rw [cleanup_old_files_fst, cleanup_old_files_snd, List.length_eq_zero]
  apply List.filter_eq_nil_iff.mpr
  intro e he
  have := (List.mem_filter.mp he).2
  simp only [Bool.not_eq_true'] at this
  simp [this]

/-! ## Temporary-file lifecycle theorems -/

/-- Claim C9 counterexample: when the unlink of the saved temporary file fails
(the error is swallowed by `cleanup_file`), the file created by the
invocation is still present after `process_uploaded_file` returns, so the
deletion is best-effort, not guaranteed. -/
theorem process_uploaded_file_cleanup_may_fail :
    (process_uploaded_file 100 ("a.txt".toList) (.ok ("hello".toList))
      7 false 0 [] true []).2 = [⟨7, true, 0, false⟩] := by
  decide

/-- Claim C9, amended: with `cleanup_after = true` the cleanup of the saved
temporary file is attempted on every path — validation failure (where no
file was saved), extraction failure, and success alike; whenever the
unlink succeeds and the saved name is fresh, the uploads directory after
the call is exactly what it was before: the file created by the
invocation is gone and no other entry is touched. -/
theorem process_uploaded_file_cleanup (len : Nat) (filename : List Char)
    (rawExtract : Except (List Char) (List Char)) (savedName : Nat)
    (now : Int) (nowIso : List Char) (fs : List FsEntry)
    (hfresh : ∀ e ∈ fs, e.name ≠ savedName) :
    (process_uploaded_file len filename rawExtract savedName true now nowIso
      true fs).2 = fs := by
  have hclean : cleanup_file savedName
      (fs ++ [⟨savedName, true, now, true⟩]) = fs := by
    unfold cleanup_file
    rw [List.filter_append]
    have h1 : List.filter (fun e : FsEntry => !(e.name == savedName && e.delOk))
        ([⟨savedName, true, now, true⟩] : List FsEntry) = [] := by
      simp [List.filter_cons]
    have h2 : List.filter (fun e : FsEntry => !(e.name == savedName && e.delOk)) fs = fs := by
      apply List.filter_eq_self.mpr
      intro e he
      simp [hfresh e he]
    rw [h1, h2, List.append_nil]
  unfold process_uploaded_file
  cases hv : validate_file filename len with
  | some r => rfl
  | none =>
    cases hx : extract_text rawExtract with
    | error e => simpa using hclean
    | ok text => simpa using hclean

/-- Witness for the amended C9 theorem: a directory holding one unrelated
file is unchanged by a full successful invocation. -/
theorem process_uploaded_file_cleanup_witness :
    (∀ e ∈ ([⟨3, true, 0, true⟩] : List FsEntry), FsEntry.name e ≠ 7) ∧
    (process_uploaded_file 100 ("a.txt".toList) (.ok ("hello".toList))
      7 true 0 [] true [⟨3, true, 0, true⟩]).2 = [⟨3, true, 0, true⟩] :=
  ⟨by decide, process_uploaded_file_cleanup _ _ _ _ _ _ _ (by decide)⟩

/-! ## Pipeline theorems -/

lemma process_uploaded_file_ok_full (len : Nat) (filename : List Char)
    (raw : List Char) (savedName : Nat) (dOk : Bool) (now : Int)
    (nowIso : List Char) (fs : List FsEntry)
    (hv : validate_file filename len = none) :
    process_uploaded_file len filename (.ok raw) savedName dOk now nowIso
      true fs =
    (.ok (normalize_text raw,
      { original_filename := filename
        file_type := (pathSuffix filename).map Char.toLower
        file_size_bytes := len
        extracted_length := (normalize_text raw).length
        extraction_timestamp := nowIso }),
     cleanup_file savedName (fs ++ [⟨savedName, true, now, dOk⟩])) := by
  unfold process_uploaded_file
  rw [hv]
  rfl

/-- Claim C4: when validation passes and raw extraction succeeds but the
normalized text is shorter than 50 characters, the route aborts with the
insufficient-text error — the same error whatever the analyzer outcome,
so the Analyze stage is never reached — that error is 400-class, and the
extractor itself reports success (the length gate lives in the route, not
in `extract_text`). -/
theorem pipeline_length_gate (len : Nat) (filename : List Char)
    (recipient : Option (List Char)) (raw : List Char) (savedName : Nat)
    (dOk : Bool) (now : Int) (nowIso : List Char)
    (vizOutcome : Except (List Char) (List Char))
    (emailOutcome : Except (List Char) EmailSendResult) (fs : List FsEntry)
    (hv : validate_file filename len = none)
    (hlen : (normalize_text raw).length < 50) :
    (∀ analyzeOutcome,
      (analyze_uploaded_document len filename recipient (.ok raw) savedName
        dOk now nowIso analyzeOutcome vizOutcome emailOutcome fs).1 =
      .error (.insufficientText (normalize_text raw).length)) ∧
    ApiError.statusCode (.insufficientText (normalize_text raw).length) = 400 ∧
    (process_uploaded_file len filename (.ok raw) savedName dOk now nowIso
      true fs).1 = .ok (normalize_text raw,
      { original_filename := filename
        file_type := (pathSuffix filename).map Char.toLower
        file_size_bytes := len
        extracted_length := (normalize_text raw).length
        extraction_timestamp := nowIso }) := by
  have hp := process_uploaded_file_ok_full len filename raw savedName dOk
    now nowIso fs hv
  refine ⟨?_, rfl, by rw [hp]⟩
  intro a
  unfold analyze_uploaded_document
  rw [hp]
  simp [hlen]

/-- Witness for the C4 theorem: a valid 100-byte `a.txt` upload whose raw
text normalizes to 2 characters is rejected with the 400 length error
while the extractor reports success. -/
theorem pipeline_length_gate_witness :
    (analyze_uploaded_document 100 ("a.txt".toList) none (.ok ("hi".toList))
      0 true 0 [] (.ok ⟨("Low".toList), ("s".toList), [], [], 0, []⟩)
      (.error ("v".toList)) (.error ("m".toList)) []).1 =
      .error (.insufficientText (normalize_text ("hi".toList)).length) ∧
    ApiError.statusCode
      (.insufficientText (normalize_text ("hi".toList)).length) = 400 ∧
    (process_uploaded_file 100 ("a.txt".toList) (.ok ("hi".toList)) 0 true
      0 [] true []).1 = .ok (normalize_text ("hi".toList),
      { original_filename := ("a.txt".toList)
        file_type := (pathSuffix ("a.txt".toList)).map Char.toLower
        file_size_bytes := 100
        extracted_length := (normalize_text ("hi".toList)).length
        extraction_timestamp := [] }) := by
  have h := pipeline_length_gate 100 ("a.txt".toList) none ("hi".toList) 0
    true 0 [] (.error ("v".toList)) (.error ("m".toList)) []
    (by decide) (by decide)
  exact ⟨h.1 _, h.2.1, h.2.2⟩

/-- Claim C1: if the Analyze stage succeeded and the Visualize stage raises any
error, the route still returns a success response whose analysis fields
are the verdict's and whose `visualizations` field is `none` — the
visualization failure never surfaces as a pipeline failure. -/
theorem pipeline_viz_failure_degrades (len : Nat) (filename : List Char)
    (recipient : Option (List Char)) (raw : List Char) (savedName : Nat)
    (dOk : Bool) (now : Int) (nowIso : List Char) (v : AnalysisVerdict)
    (e : List Char) (emailOutcome : Except (List Char) EmailSendResult)
    (fs : List FsEntry)
    (hv : validate_file filename len = none)
    (hlen : 50 ≤ (normalize_text raw).length) :
    (responseOf (analyze_uploaded_document len filename recipient (.ok raw)
      savedName dOk now nowIso (.ok v) (.error e) emailOutcome fs).1).map
      (fun r => (r.analysis.risk_level, r.analysis.summary,
        r.analysis.list_of_flags, r.analysis.recommendations,
        r.analysis.total_flagged_amount, r.analysis.visualizations)) =
    some (v.risk_level, v.summary, v.list_of_flags, v.recommendations,
      v.total_flagged_amount, none) := by
  have hp := process_uploaded_file_ok_full len filename raw savedName dOk
    now nowIso fs hv
  have hnl : ¬ (normalize_text raw).length < 50 := Nat.not_lt.mpr hlen
  unfold analyze_uploaded_document
  rw [hp]
  simp [hnl, responseOf]

/-- Witness for the C1 theorem at a concrete upload whose normalized text
has 60 characters, with a failing visualization stage. -/
theorem pipeline_viz_failure_degrades_witness :
    (responseOf (analyze_uploaded_document 100 ("a.txt".toList) none
      (.ok ("aaaaaaaaaaaaaaaaaaaaaaaaaaaaaaaaaaaaaaaaaaaaaaaaaaaaaaaaaaaa".toList))
      0 true 0 [] (.ok ⟨("High".toList), ("sum".toList), [], [], 0, []⟩)
      (.error ("viz boom".toList)) (.error ("m".toList)) []).1).map
      (fun r => (r.analysis.risk_level, r.analysis.summary,
        r.analysis.list_of_flags, r.analysis.recommendations,
        r.analysis.total_flagged_amount, r.analysis.visualizations)) =
    some (("High".toList), ("sum".toList), [], [], 0, none) :=
  pipeline_viz_failure_degrades 100 ("a.txt".toList) none
    ("aaaaaaaaaaaaaaaaaaaaaaaaaaaaaaaaaaaaaaaaaaaaaaaaaaaaaaaaaaaa".toList)
    0 true 0 [] ⟨("High".toList), ("sum".toList), [], [], 0, []⟩
    ("viz boom".toList) (.error ("m".toList)) [] (by decide) (by decide)

/-- Claim C5: after a successful analysis, the Notify stage degrades rather
than failing the call: with a recipient, a raising mailer yields a
delivery record `success := false` carrying the exception text as its
error, a mailer that reports failure yields `success := false` carrying
the mailer's own error field, and in both cases the route still returns a
success response; without a recipient the delivery field is absent. -/
theorem pipeline_notify_outcomes (len : Nat) (filename : List Char)
    (raw : List Char) (savedName : Nat) (dOk : Bool) (now : Int)
    (nowIso : List Char) (v : AnalysisVerdict)
    (vizOutcome : Except (List Char) (List Char)) (fs : List FsEntry)
    (hv : validate_file filename len = none)
    (hlen : 50 ≤ (normalize_text raw).length) :
    (∀ rcpt e2,
      (responseOf (analyze_uploaded_document len filename (some rcpt)
        (.ok raw) savedName dOk now nowIso (.ok v) vizOutcome
        (.error e2) fs).1).map (fun r => r.analysis.email_sent) =
      some (some { success := false, recipient := rcpt,
                   message := none, error := some e2 })) ∧
    (∀ rcpt res, EmailSendResult.success res = false →
      (responseOf (analyze_uploaded_document len filename (some rcpt)
        (.ok raw) savedName dOk now nowIso (.ok v) vizOutcome
        (.ok res) fs).1).map (fun r => r.analysis.email_sent) =
      some (some { success := false, recipient := rcpt,
                   message := some (res.message.getD ("Email sent successfully".toList)),
                   error := res.error })) ∧
    (∀ emailOutcome,
      (responseOf (analyze_uploaded_document len filename none
        (.ok raw) savedName dOk now nowIso (.ok v) vizOutcome
        emailOutcome fs).1).map (fun r => r.analysis.email_sent) =
      some none) := by
  have hp := process_uploaded_file_ok_full len filename raw savedName dOk
    now nowIso fs hv
  have hnl : ¬ (normalize_text raw).length < 50 := Nat.not_lt.mpr hlen
  refine ⟨?_, ?_, ?_⟩
  · intro rcpt e2
    unfold analyze_uploaded_document
    rw [hp]
    simp [hnl, responseOf]
  · intro rcpt res hsf
    unfold analyze_uploaded_document
    rw [hp]
    simp [hnl, responseOf, hsf]
  · intro emailOutcome
    unfold analyze_uploaded_document
    rw [hp]
    simp [hnl, responseOf]

/-- Witness for the C5 theorem: a raising mailer, a mailer reporting
failure, and the no-recipient case, at a concrete upload. -/
theorem pipeline_notify_outcomes_witness :
    (responseOf (analyze_uploaded_document 100 ("a.txt".toList)
      (some ("u@x".toList))
      (.ok ("aaaaaaaaaaaaaaaaaaaaaaaaaaaaaaaaaaaaaaaaaaaaaaaaaaaaaaaaaaaa".toList))
      0 true 0 [] (.ok ⟨("Low".toList), ("s".toList), [], [], 0, []⟩)
      (.ok ("p.png".toList)) (.error ("mail down".toList)) []).1).map
      (fun r => r.analysis.email_sent) =
    some (some { success := false, recipient := ("u@x".toList),
                 message := none, error := some ("mail down".toList) }) ∧
    (responseOf (analyze_uploaded_document 100 ("a.txt".toList)
      (some ("u@x".toList))
      (.ok ("aaaaaaaaaaaaaaaaaaaaaaaaaaaaaaaaaaaaaaaaaaaaaaaaaaaaaaaaaaaa".toList))
      0 true 0 [] (.ok ⟨("Low".toList), ("s".toList), [], [], 0, []⟩)
      (.ok ("p.png".toList)) (.ok ⟨false, none, some ("smtp".toList)⟩) []).1).map
      (fun r => r.analysis.email_sent) =
    some (some { success := false, recipient := ("u@x".toList),
                 message := some ("Email sent successfully".toList),
                 error := some ("smtp".toList) }) ∧
    (responseOf (analyze_uploaded_document 100 ("a.txt".toList) none
      (.ok ("aaaaaaaaaaaaaaaaaaaaaaaaaaaaaaaaaaaaaaaaaaaaaaaaaaaaaaaaaaaa".toList))
      0 true 0 [] (.ok ⟨("Low".toList), ("s".toList), [], [], 0, []⟩)
      (.ok ("p.png".toList)) (.error ("z".toList)) []).1).map
      (fun r => r.analysis.email_sent) = some none := by
  have h := pipeline_notify_outcomes 100 ("a.txt".toList)
    ("aaaaaaaaaaaaaaaaaaaaaaaaaaaaaaaaaaaaaaaaaaaaaaaaaaaaaaaaaaaa".toList)
    0 true 0 [] ⟨("Low".toList), ("s".toList), [], [], 0, []⟩
    (.ok ("p.png".toList)) [] (by decide) (by decide)
  exact ⟨h.1 _ _, h.2.1 _ ⟨false, none, some ("smtp".toList)⟩ rfl, h.2.2 _⟩
